import Mathlib

/-!
Verification of the TileDB serialization boundary
(src/tiledb/sm/c_api/tiledb_serialization.h).

The repository provides only the C API declarations of the serialization
layer; the behaviour of the encoders and decoders is modelled here from the
specification (spec.md), as a shallow embedding: byte streams are lists of
natural-number tokens, memory is a map from region identifiers to byte
lists, and buffers are ownership-tagged views into memory.
-/

namespace TileDB

/-- Modelled from the spec: `tiledb_serialization_type_t`, the enumerated
wire-format tag (a compact binary format and a human-readable format);
the concrete enumerators come from `tiledb_enum.h`, which is not in the
provided sources. -/
inductive SerializationType
  | json
  | capnp
deriving DecidableEq, Repr

/-- Modelled from the spec: the client/server perspective flag
(the `client_side` parameter of every serialization entry point). -/
inductive Perspective
  | client
  | server
deriving DecidableEq, Repr

/-- The opposite side of an exchange: a payload encoded from one
perspective is decoded from the other. -/
def Perspective.opp : Perspective → Perspective
  | .client => .server
  | .server => .client

/-- Translation of the C `client_side` flag into a perspective. -/
def perspOf (clientSide : Bool) : Perspective :=
  if clientSide then .client else .server

/-- Modelled from the spec: the error taxonomy of section 7. -/
inductive SerErr
  | unsupportedFormat
  | malformedInput
  | schemaDecode
  | bufferTooSmall (fieldName : List Nat) (required : Nat)
  | domainSizeMismatch
  | capacityError
deriving DecidableEq, Repr

/-- The wire tag that identifies each registered format. -/
def formatTag : SerializationType → Nat
  | .json => 0
  | .capnp => 1

/-- The wire-format version carried in every payload header. -/
def wireVersion : Nat := 1

/-- Modelled from the spec: every encoded payload starts with a fixed-size
self-describing header holding the format tag and a version number. -/
def encHeader (f : SerializationType) : List Nat :=
  [formatTag f, wireVersion]

/-- Header check of every decoder: the buffer's tag must match the
requested format and the version must be the one this decoder handles. -/
def decHeader (f : SerializationType) : List Nat → Option (List Nat)
  | t :: v :: rest =>
    if t = formatTag f ∧ v = wireVersion then some rest else none
  | _ => none

/-- Decidable test for a corrupted or foreign header relative to the
requested format: missing bytes, a tag that does not match, or a version
this decoder cannot handle. -/
def badHeader (f : SerializationType) : List Nat → Bool
  | t :: v :: _ => !(t == formatTag f && v == wireVersion)
  | _ => true

/-! ### Token-stream primitives -/

def encNat (n : Nat) : List Nat := [n]

def decNat : List Nat → Option (Nat × List Nat)
  | n :: rest => some (n, rest)
  | [] => none

def encBool (b : Bool) : List Nat := [if b then 1 else 0]

def decBool : List Nat → Option (Bool × List Nat)
  | 0 :: rest => some (false, rest)
  | 1 :: rest => some (true, rest)
  | _ => none

/-- Length-prefixed byte string (names, condition expressions). -/
def encStr (s : List Nat) : List Nat := s.length :: s

def decStr : List Nat → Option (List Nat × List Nat)
  | n :: rest =>
    if n ≤ rest.length then some (rest.take n, rest.drop n) else none
  | [] => none

def encPair (x : Nat × Nat) : List Nat := [x.1, x.2]

def decPair : List Nat → Option ((Nat × Nat) × List Nat)
  | a :: b :: rest => some ((a, b), rest)
  | _ => none

/-- Length-prefixed sequence of encoded elements. -/
def encListWith (enc : α → List Nat) (xs : List α) : List Nat :=
  xs.length :: (xs.map enc).flatten

/-- Decode exactly `k` elements. -/
def decCount (dec : List Nat → Option (α × List Nat)) :
    Nat → List Nat → Option (List α × List Nat)
  | 0, s => some ([], s)
  | k + 1, s =>
    match dec s with
    | none => none
    | some (x, s') =>
      match decCount dec k s' with
      | none => none
      | some (xs, s'') => some (x :: xs, s'')

/-- Decode a length-prefixed sequence. -/
def decListWith (dec : List Nat → Option (α × List Nat)) :
    List Nat → Option (List α × List Nat)
  | n :: rest => decCount dec n rest
  | [] => none

/-! ### Array schema model (spec section 4.3) -/

/-- Modelled from the spec: a dimension of an array schema
(name, type, domain bounds, tile extent). -/
structure Dimension where
  name : List Nat
  dtype : Nat
  domainLo : Nat
  domainHi : Nat
  tileExtent : Nat
deriving DecidableEq, Repr

/-- Modelled from the spec: an attribute of an array schema (name, type,
cell count, nullability, filter pipeline); `filterParams` stands for the
internal-only filter parameters that the server perspective redacts. -/
structure Attribute where
  name : List Nat
  dtype : Nat
  cellValNum : Nat
  nullable : Bool
  filters : List Nat
  filterParams : List Nat
deriving DecidableEq, Repr

/-- Modelled from the spec: an array schema (dimensions, attributes,
domain type, cell/tile order, schema version). -/
structure ArraySchema where
  dimensions : List Dimension
  attributes : List Attribute
  domainType : Nat
  cellOrder : Nat
  tileOrder : Nat
  version : Nat
deriving DecidableEq, Repr

def encDim (d : Dimension) : List Nat :=
  encStr d.name ++ encNat d.dtype ++ encNat d.domainLo ++
    encNat d.domainHi ++ encNat d.tileExtent

def decDim (s : List Nat) : Option (Dimension × List Nat) :=
  match decStr s with
  | none => none
  | some (nm, s1) =>
    match decNat s1 with
    | none => none
    | some (dt, s2) =>
      match decNat s2 with
      | none => none
      | some (lo, s3) =>
        match decNat s3 with
        | none => none
        | some (hi, s4) =>
          match decNat s4 with
          | none => none
          | some (ext, s5) => some (⟨nm, dt, lo, hi, ext⟩, s5)

/-- Modelled from the spec: attribute encoding; the `server` perspective
omits the internal-only filter parameters. -/
def encAttr (p : Perspective) (a : Attribute) : List Nat :=
  encStr a.name ++ encNat a.dtype ++ encNat a.cellValNum ++
    encBool a.nullable ++ encListWith encNat a.filters ++
    encListWith encNat (match p with | .client => a.filterParams | .server => [])

def decAttr (s : List Nat) : Option (Attribute × List Nat) :=
  match decStr s with
  | none => none
  | some (nm, s1) =>
    match decNat s1 with
    | none => none
    | some (dt, s2) =>
      match decNat s2 with
      | none => none
      | some (cvn, s3) =>
        match decBool s3 with
        | none => none
        | some (nl, s4) =>
          match decListWith decNat s4 with
          | none => none
          | some (fl, s5) =>
            match decListWith decNat s5 with
            | none => none
            | some (fp, s6) => some (⟨nm, dt, cvn, nl, fl, fp⟩, s6)

/-- Modelled from the spec: `tiledb_serialize_array_schema`; encodes the
schema fields behind the self-describing header, the perspective deciding
whether the internal-only filter parameters are carried. -/
def serializeArraySchema (f : SerializationType) (p : Perspective)
    (s : ArraySchema) : List Nat :=
  encHeader f ++ encNat s.version ++ encNat s.domainType ++
    encNat s.cellOrder ++ encNat s.tileOrder ++
    encListWith encDim s.dimensions ++ encListWith (encAttr p) s.attributes

/-- Modelled from the spec: `tiledb_deserialize_array_schema`; checks the
header, decodes each field and allocates a new schema; a corrupt header is
`malformedInput`, a structurally bad body is `schemaDecode`. -/
def deserializeArraySchema (f : SerializationType) (_p : Perspective)
    (bytes : List Nat) : Except SerErr ArraySchema :=
  match decHeader f bytes with
  | none => .error .malformedInput
  | some r0 =>
    match decNat r0 with
    | none => .error .schemaDecode
    | some (ver, r1) =>
      match decNat r1 with
      | none => .error .schemaDecode
      | some (dty, r2) =>
        match decNat r2 with
        | none => .error .schemaDecode
        | some (co, r3) =>
          match decNat r3 with
          | none => .error .schemaDecode
          | some (tord, r4) =>
            match decListWith decDim r4 with
            | none => .error .schemaDecode
            | some (dims, r5) =>
              match decListWith decAttr r5 with
              | none => .error .schemaDecode
              | some (attrs, _) =>
                .ok ⟨dims, attrs, dty, co, tord, ver⟩

/-- What survives the wire: under the `server` perspective the
internal-only filter parameters are redacted, under `client` everything
is carried. -/
def redactSchema : Perspective → ArraySchema → ArraySchema
  | .client, s => s
  | .server, s =>
    { s with attributes := s.attributes.map fun a => { a with filterParams := [] } }

/-- The perspective-preserved fields of an attribute. -/
def attrPreservedEq (p : Perspective) (a b : Attribute) : Prop :=
  a.name = b.name ∧ a.dtype = b.dtype ∧ a.cellValNum = b.cellValNum ∧
    a.nullable = b.nullable ∧ a.filters = b.filters ∧
    (p = .client → a.filterParams = b.filterParams)

/-- Equality of two schemas on all perspective-preserved fields. -/
def schemaPreservedEq (p : Perspective) (s t : ArraySchema) : Prop :=
  s.dimensions = t.dimensions ∧ s.domainType = t.domainType ∧
    s.cellOrder = t.cellOrder ∧ s.tileOrder = t.tileOrder ∧
    s.version = t.version ∧
    List.Forall₂ (attrPreservedEq p) s.attributes t.attributes

/-- How one attribute passes through the wire at a given perspective. -/
def attrThrough : Perspective → Attribute → Attribute
  | .client, a => a
  | .server, a => { a with filterParams := [] }

/-! ### Buffers, buffer lists and memory (spec sections 3 and 4.1) -/

/-- Memory: a map from region identifiers to byte contents.  A region is
the unit of ownership and of lifetime (freeing or overwriting a region
changes the map at its identifier). -/
abbrev Mem := Nat → List Nat

/-- Modelled from the spec: a Buffer view — an ownership-tagged byte
region (`owns` false means a non-owning view whose referent must outlive
every read), with a used size and an allocated capacity. -/
structure BufferView where
  region : Nat
  off : Nat
  size : Nat
  capacity : Nat
  owns : Bool
deriving DecidableEq, Repr

/-- Reading the bytes a view denotes under a given memory. -/
def readView (m : Mem) (v : BufferView) : List Nat :=
  ((m v.region).drop v.off).take v.size

/-- Modelled from the spec: a materialized Buffer — bytes plus the
ownership tag. -/
structure Buffer where
  data : List Nat
  owns : Bool
deriving DecidableEq, Repr

/-- Modelled from the spec: a BufferList — an ordered sequence of Buffer
segments representing one logical byte stream. -/
structure BufferList where
  segments : List Buffer
deriving DecidableEq, Repr

/-- Sum of the segment sizes. -/
def BufferList.totalSize (bl : BufferList) : Nat :=
  (bl.segments.map fun b => b.data.length).sum

/-- The explicit, opt-in copy: concatenating all segments into one owned
contiguous buffer (spec section 4.1). -/
def BufferList.toContiguous (bl : BufferList) : Buffer :=
  ⟨(bl.segments.map Buffer.data).flatten, true⟩

/-! ### Query model (spec section 4.4) -/

/-- Modelled from the spec: one attribute/dimension field of a query: its
name, its data buffer (a view into caller-owned memory) and the final
cell count which a server reply carries. -/
structure QueryField where
  name : List Nat
  buf : BufferView
  cellCount : Nat
deriving DecidableEq, Repr

/-- Modelled from the spec: a query's serializable execution state —
layout, subarray ranges, condition expression and per-field buffers. -/
structure Query where
  layout : Nat
  subarray : List (Nat × Nat)
  condition : List Nat
  fields : List QueryField
deriving DecidableEq, Repr

/-- The schema-declared field order: dimensions then attributes, in
declaration order. -/
def schemaFieldNames (s : ArraySchema) : List (List Nat) :=
  s.dimensions.map Dimension.name ++ s.attributes.map Attribute.name

/-- The query fields that take part in serialization, listed in
schema-declared order (spec section 4.4 ordering guarantee). -/
def presentFields (s : ArraySchema) (q : Query) : List QueryField :=
  (schemaFieldNames s).filterMap fun n =>
    q.fields.find? fun g => g.name == n

/-- The structural metadata of one field carried in the header segment:
name, used size, allocated capacity and (server perspective only) the
final cell count. -/
structure FieldMeta where
  name : List Nat
  size : Nat
  capacity : Nat
  cellCount : Nat
deriving DecidableEq, Repr

/-- The metadata of a field as serialization records it: the size is the
byte count the data segment will carry. -/
def fieldMeta (m : Mem) (fld : QueryField) : FieldMeta :=
  ⟨fld.name, (readView m fld.buf).length, fld.buf.capacity, fld.cellCount⟩

/-- Modelled from the spec: field-metadata encoding; only the `server`
perspective (the reply direction) carries final cell counts. -/
def encFieldMeta : Perspective → FieldMeta → List Nat
  | .client, fm => encStr fm.name ++ encNat fm.size ++ encNat fm.capacity
  | .server, fm =>
    encStr fm.name ++ encNat fm.size ++ encNat fm.capacity ++ encNat fm.cellCount

/-- Field-metadata decoding, from the perspective of the decoding side:
the server decodes a client-shaped request (no cell counts), the client
decodes a server-shaped reply (with cell counts). -/
def decFieldMeta : Perspective → List Nat → Option (FieldMeta × List Nat)
  | .server, s =>
    match decStr s with
    | none => none
    | some (nm, s1) =>
      match decNat s1 with
      | none => none
      | some (sz, s2) =>
        match decNat s2 with
        | none => none
        | some (cap, s3) => some (⟨nm, sz, cap, 0⟩, s3)
  | .client, s =>
    match decStr s with
    | none => none
    | some (nm, s1) =>
      match decNat s1 with
      | none => none
      | some (sz, s2) =>
        match decNat s2 with
        | none => none
        | some (cap, s3) =>
          match decNat s3 with
          | none => none
          | some (cc, s4) => some (⟨nm, sz, cap, cc⟩, s4)

/-- How one field's metadata passes through the wire when encoded from
perspective `p` and decoded on the other side: a client-shaped request
does not carry cell counts, so they come out as zero. -/
def metaThrough : Perspective → FieldMeta → FieldMeta
  | .client, fm => { fm with cellCount := 0 }
  | .server, fm => fm

/-- The header segment of a serialized query: wire header, layout,
subarray, condition and the field-metadata table, in schema order. -/
def queryMetaBytes (m : Mem) (s : ArraySchema) (q : Query)
    (f : SerializationType) (p : Perspective) : List Nat :=
  encHeader f ++ encNat q.layout ++ encListWith encPair q.subarray ++
    encStr q.condition ++
    encListWith (encFieldMeta p) ((presentFields s q).map (fieldMeta m))

/-- Modelled from the spec: `tiledb_serialize_query` — the header segment
followed by one non-owning data segment per present field, in
schema-declared order; the data segments alias the query's buffers
(zero-copy), so they are tagged as not owning their bytes. -/
def serializeQuery (m : Mem) (s : ArraySchema) (q : Query)
    (f : SerializationType) (p : Perspective) : BufferList :=
  ⟨⟨queryMetaBytes m s q f p, true⟩ ::
    (presentFields s q).map fun fld => ⟨readView m fld.buf, false⟩⟩

/-- The field population loop of query deserialization.  For each field
of the metadata table, in order: find the matching buffer of the
pre-existing target query, check its allocated capacity against the
required size (the designed recoverable failure reports that exact
required size), check the payload is not truncated, and produce a field
whose data buffer is a non-owning view aliasing the source bytes at the
current position — no copy is made. -/
def decFieldsLoop (rgn roff : Nat) (target : Query) (p : Perspective) :
    List FieldMeta → Nat → List Nat → Except SerErr (List QueryField)
  | [], _, _ => .ok []
  | fm :: ms, pos, rest =>
    match target.fields.find? (fun g => g.name == fm.name) with
    | none => .error .malformedInput
    | some g =>
      if fm.size ≤ g.buf.capacity then
        if fm.size ≤ rest.length then
          match decFieldsLoop rgn roff target p ms (pos + fm.size)
              (rest.drop fm.size) with
          | .error e => .error e
          | .ok flds =>
            .ok ({ name := fm.name,
                   buf := { region := rgn, off := roff + pos, size := fm.size,
                            capacity := fm.capacity, owns := false },
                   cellCount := fm.cellCount } :: flds)
        else .error .malformedInput
      else .error (.bufferTooSmall fm.name fm.size)

/-- Modelled from the spec: `tiledb_deserialize_query` — reads the source
bytes through the given view, checks the self-describing header, decodes
the structural metadata, then populates the pre-existing target query;
the produced data buffers are zero-copy views into the source region. -/
def deserializeQuery (m : Mem) (src : BufferView) (f : SerializationType)
    (p : Perspective) (target : Query) : Except SerErr Query :=
  let bytes := readView m src
  match decHeader f bytes with
  | none => .error .malformedInput
  | some r0 =>
    match decNat r0 with
    | none => .error .malformedInput
    | some (lay, r1) =>
      match decListWith decPair r1 with
      | none => .error .malformedInput
      | some (sub, r2) =>
        match decStr r2 with
        | none => .error .malformedInput
        | some (cnd, r3) =>
          match decListWith (decFieldMeta p) r3 with
          | none => .error .malformedInput
          | some (metas, r4) =>
            match decFieldsLoop src.region src.off target p metas
                (bytes.length - r4.length) r4 with
            | .error e => .error e
            | .ok flds => .ok ⟨lay, sub, cnd, flds⟩

/-- The fields of a successful query deserialization (empty on error). -/
def fieldsOfResult : Except SerErr Query → List QueryField
  | .ok q => q.fields
  | .error _ => []

/-- All of the metadata table's fields exist in the target query. -/
def allFieldsFound (target : Query) (metas : List FieldMeta) : Bool :=
  metas.all fun fm => (target.fields.find? fun g => g.name == fm.name).isSome

/-- The fields of the metadata table whose matching target buffer is too
small, with the required sizes. -/
def undersizedList (target : Query) (metas : List FieldMeta) :
    List (List Nat × Nat) :=
  metas.filterMap fun fm =>
    match target.fields.find? (fun g => g.name == fm.name) with
    | some g =>
      if g.buf.capacity < fm.size then some (fm.name, fm.size) else none
    | none => none

/-- Reallocating one named buffer of the target query to a given
capacity (the caller's reallocate-and-retry step). -/
def setFieldCapacity (target : Query) (nm : List Nat) (cap : Nat) : Query :=
  { target with
    fields := target.fields.map fun g =>
      if g.name == nm then { g with buf := { g.buf with capacity := cap } }
      else g }

/-- The single contiguous transport body of a serialized query. -/
def wireOf (bl : BufferList) : List Nat := bl.toContiguous.data

/-- A memory holding the same byte content in every region (a convenient
transport-side memory for round-trip statements). -/
def memOf (w : List Nat) : Mem := fun _ => w

/-- A source view covering a whole region that holds the wire bytes. -/
def srcOf (rgn : Nat) (w : List Nat) : BufferView :=
  ⟨rgn, 0, w.length, w.length, false⟩

/-! ### Behaviour of the field population loop -/

/-- The fields a successful population loop produces from a table of
(metadata, data-bytes) pairs laid out from a given position. -/
def expectedFields (rgn : Nat) :
    List (FieldMeta × List Nat) → Nat → List QueryField
  | [], _ => []
  | pr :: prs, pos =>
    ⟨pr.1.name, ⟨rgn, pos, pr.1.size, pr.1.capacity, false⟩, pr.1.cellCount⟩ ::
      expectedFields rgn prs (pos + pr.1.size)

/-! ### The wire of a serialized query -/

/-- The concatenated data segments of a serialized query. -/
def wireDatas (m : Mem) (s : ArraySchema) (q : Query) : List Nat :=
  ((presentFields s q).map fun fld => readView m fld.buf).flatten

/-- The (decoded metadata, data bytes) table a round trip hands to the
field population loop. -/
def wirePairs (m : Mem) (p : Perspective) (s : ArraySchema) (q : Query) :
    List (FieldMeta × List Nat) :=
  (presentFields s q).map fun fld =>
    (metaThrough p (fieldMeta m fld), readView m fld.buf)

/-- A target accepts the wire of a serialized query when every present
field has a matching target buffer with sufficient capacity. -/
def targetAcceptsWire (m : Mem) (s : ArraySchema) (q target : Query) : Prop :=
  ∀ fld ∈ presentFields s q, ∃ g,
    target.fields.find? (fun x => x.name == fld.name) = some g ∧
      (readView m fld.buf).length ≤ g.buf.capacity

/-! ### Decidable checks and the claim-level query theorems -/

/-- Decidable check of the aliasing contract: every field buffer is a
non-owning view of the source region. -/
def aliasesSource (flds : List QueryField) (src : BufferView) : Bool :=
  flds.all fun fld => !fld.buf.owns && (fld.buf.region == src.region)

/-- Decidable form of `targetAcceptsWire`. -/
def targetAcceptsWireB (m : Mem) (s : ArraySchema) (q target : Query) :
    Bool :=
  (presentFields s q).all fun fld =>
    match target.fields.find? (fun x => x.name == fld.name) with
    | some g => (readView m fld.buf).length ≤ g.buf.capacity
    | none => false

/-- Decidable capacity check over a table of wire pairs. -/
def pairsAcceptB (target : Query) (pairs : List (FieldMeta × List Nat)) :
    Bool :=
  pairs.all fun pr =>
    match target.fields.find? (fun x => x.name == pr.1.name) with
    | some g => pr.1.size ≤ g.buf.capacity
    | none => false

/-! ### Non-empty domain serializer (spec section 4.5) -/

/-- Modelled from the spec: the array object, exposing what the domain
serializer needs from the array's schema — the dimension count that
sizes the caller-supplied bounds storage. -/
structure ArrayObj where
  dims : Nat
deriving DecidableEq, Repr

/-- Modelled from the spec: `tiledb_serialize_array_nonempty_domain` —
the self-describing header, the emptiness flag as the leading body byte,
then (only when non-empty) the per-dimension min/max pairs; when the
domain is empty the bounds content is not encoded. -/
def serializeArrayNonemptyDomain (_arr : ArrayObj)
    (bounds : List (Nat × Nat)) (isEmpty : Bool) (f : SerializationType)
    (_p : Perspective) : Buffer :=
  ⟨encHeader f ++ encBool isEmpty ++
    (if isEmpty then [] else encListWith encPair bounds), true⟩

/-- Modelled from the spec: `tiledb_deserialize_array_nonempty_domain` —
validates the header, reads the emptiness flag, and only after decoding
the bounds and checking them against the schema-implied dimension count
does it write into the caller-supplied storage; on any failure (and on an
empty domain) the storage is returned untouched — no partial mutation
(spec section 7). -/
def deserializeArrayNonemptyDomain (arr : ArrayObj) (f : SerializationType)
    (_p : Perspective) (bytes : List Nat) (storage : List (Nat × Nat)) :
    Except SerErr Bool × List (Nat × Nat) :=
  match decHeader f bytes with
  | none => (.error .malformedInput, storage)
  | some r0 =>
    match decBool r0 with
    | none => (.error .malformedInput, storage)
    | some (true, _) => (.ok true, storage)
    | some (false, r1) =>
      match decListWith decPair r1 with
      | none => (.error .malformedInput, storage)
      | some (bounds, _) =>
        if bounds.length = arr.dims then (.ok false, bounds)
        else (.error .domainSizeMismatch, storage)

/-- The C out-parameter convention of `tiledb_deserialize_array_schema`:
on success the handle is set to the newly allocated schema, on failure it
is left untouched. -/
def deserializeArraySchemaInto (f : SerializationType) (p : Perspective)
    (bytes : List Nat) (out : Option ArraySchema) :
    Except SerErr Unit × Option ArraySchema :=
  match deserializeArraySchema f p bytes with
  | .ok sc => (.ok (), some sc)
  | .error e => (.error e, out)

/-! ### The C API surface as a state transformer (claim C10) -/

/-- The handle stores of the C API boundary: live schemas, queries (with
the schema they execute against), arrays, non-empty-domain bounds
storage, output buffers and buffer lists, and the raw memory regions the
query buffers point into. -/
structure CApiState where
  schemas : Nat → Option ArraySchema
  queries : Nat → Option (Query × ArraySchema)
  arrays : Nat → Option ArrayObj
  domains : Nat → Option (List (Nat × Nat))
  buffers : Nat → Option Buffer
  bufferLists : Nat → Option BufferList
  mem : Mem

/-- The C API status codes. -/
def TILEDB_OK : Int := 0

def TILEDB_ERR : Int := -1

/-- Modelled from the spec: the entry point
`tiledb_serialize_array_schema` — reads the const schema handle and
writes only the output buffer handle. -/
def apiSerializeArraySchema (st : CApiState) (schemaH : Nat)
    (f : SerializationType) (clientSide : Bool) (bufH : Nat) :
    CApiState × Int :=
  match st.schemas schemaH with
  | none => (st, TILEDB_ERR)
  | some sc =>
    ({ st with buffers := fun h => if h = bufH
        then some ⟨serializeArraySchema f (perspOf clientSide) sc, true⟩
        else st.buffers h }, TILEDB_OK)

/-- Modelled from the spec: the entry point `tiledb_serialize_query` —
reads the const query handle and writes only the output buffer-list
handle. -/
def apiSerializeQuery (st : CApiState) (qH : Nat) (f : SerializationType)
    (clientSide : Bool) (blH : Nat) : CApiState × Int :=
  match st.queries qH with
  | none => (st, TILEDB_ERR)
  | some qs =>
    ({ st with bufferLists := fun h => if h = blH
        then some (serializeQuery st.mem qs.2 qs.1 f (perspOf clientSide))
        else st.bufferLists h }, TILEDB_OK)

/-- Modelled from the spec: the entry point
`tiledb_serialize_array_nonempty_domain` — reads the const array handle
and const bounds, and writes only the output buffer handle. -/
def apiSerializeArrayNonemptyDomain (st : CApiState) (arrH domH : Nat)
    (isEmpty : Bool) (f : SerializationType) (clientSide : Bool)
    (bufH : Nat) : CApiState × Int :=
  match st.arrays arrH, st.domains domH with
  | some arr, some bounds =>
    ({ st with buffers := fun h => if h = bufH
        then some (serializeArrayNonemptyDomain arr bounds isEmpty f
          (perspOf clientSide))
        else st.buffers h }, TILEDB_OK)
  | _, _ => (st, TILEDB_ERR)

/-! ### Concrete witness data -/

/-- A concrete schema: one dimension (name [100]) and one attribute
(name [97]). -/
def schemaW : ArraySchema :=
  ⟨[⟨[100], 1, 0, 9, 2⟩], [⟨[97], 3, 1, false, [5], [7]⟩], 0, 0, 0, 4⟩

/-- A concrete memory region holding five bytes in every region. -/
def memW : Mem := fun _ => [10, 11, 12, 13, 14]

/-- A concrete filled (reply-shaped) query over `schemaW`: the dimension
buffer views bytes 0..1, the attribute buffer views bytes 2..4. -/
def queryW : Query :=
  ⟨1, [(0, 3)], [42],
    [⟨[100], ⟨0, 0, 2, 4, true⟩, 2⟩, ⟨[97], ⟨0, 2, 3, 8, true⟩, 3⟩]⟩

/-- A concrete request-shaped query: same buffers, all unfilled. -/
def queryReqW : Query :=
  ⟨1, [(0, 3)], [42],
    [⟨[100], ⟨0, 0, 0, 4, true⟩, 0⟩, ⟨[97], ⟨0, 2, 0, 8, true⟩, 0⟩]⟩

/-- A target query with ample capacities for both fields. -/
def targetW : Query :=
  ⟨0, [], [],
    [⟨[100], ⟨1, 0, 0, 5, true⟩, 0⟩, ⟨[97], ⟨1, 0, 0, 6, true⟩, 0⟩]⟩

/-- A target query whose attribute buffer capacity (2) is smaller than
the 3 bytes the wire requires. -/
def targetSmallW : Query :=
  ⟨0, [], [],
    [⟨[100], ⟨1, 0, 0, 5, true⟩, 0⟩, ⟨[97], ⟨1, 0, 0, 2, true⟩, 0⟩]⟩

/-- A memory agreeing with the wire memory on region 7 only. -/
def memW2 : Mem := fun r =>
  if r = 7 then wireOf (serializeQuery memW schemaW queryW .capnp .client)
  else []

/-- A concrete one-dimensional array object. -/
def arrW : ArrayObj := ⟨1⟩

/-- A concrete C API state populated at every handle. -/
def stW : CApiState :=
  ⟨fun _ => some schemaW, fun _ => some (queryW, schemaW),
    fun _ => some arrW, fun _ => some [(1, 2)], fun _ => none,
    fun _ => none, memW⟩

/-! ### Theorems -/

/-! ### Round-trip lemmas for the primitives -/

@[simp]
theorem decHeader_encHeader (f : SerializationType) (r : List Nat) :
    decHeader f (encHeader f ++ r) = some r := by
  simp [decHeader, encHeader]

@[simp]
theorem decNat_encNat (n : Nat) (r : List Nat) :
    decNat (encNat n ++ r) = some (n, r) := rfl

@[simp]
theorem decBool_encBool (b : Bool) (r : List Nat) :
    decBool (encBool b ++ r) = some (b, r) := by
  cases b <;> rfl

@[simp]
theorem decStr_encStr (s r : List Nat) :
    decStr (encStr s ++ r) = some (s, r) := by
  simp [decStr, encStr, List.take_left, List.drop_left]

@[simp]
theorem decPair_encPair (x : Nat × Nat) (r : List Nat) :
    decPair (encPair x ++ r) = some (x, r) := rfl

theorem decCount_encoded_map {α : Type _} (enc : α → List Nat)
    (dec : List Nat → Option (α × List Nat)) (g : α → α)
    (h : ∀ x r, dec (enc x ++ r) = some (g x, r)) :
    ∀ (xs : List α) (r : List Nat),
      decCount dec xs.length ((xs.map enc).flatten ++ r) = some (xs.map g, r) := by
  intro xs
  induction xs with
  | nil => intro r; simp [decCount]
  | cons x xs ih =>
    intro r
    simp only [List.map_cons, List.flatten_cons, List.append_assoc]
    simp [decCount, h, ih]

theorem decListWith_encListWith_map {α : Type _} (enc : α → List Nat)
    (dec : List Nat → Option (α × List Nat)) (g : α → α)
    (h : ∀ x r, dec (enc x ++ r) = some (g x, r))
    (xs : List α) (r : List Nat) :
    decListWith dec (encListWith enc xs ++ r) = some (xs.map g, r) := by
  simp only [encListWith, List.cons_append, decListWith]
  have := decCount_encoded_map enc dec g h xs r
  simpa using this

theorem decListWith_encListWith {α : Type _} (enc : α → List Nat)
    (dec : List Nat → Option (α × List Nat))
    (h : ∀ x r, dec (enc x ++ r) = some (x, r))
    (xs : List α) (r : List Nat) :
    decListWith dec (encListWith enc xs ++ r) = some (xs, r) := by
  have := decListWith_encListWith_map enc dec id h xs r
  simpa using this

@[simp]
theorem decDim_encDim (d : Dimension) (r : List Nat) :
    decDim (encDim d ++ r) = some (d, r) := by
  simp [decDim, encDim]

@[simp]
theorem decAttr_encAttr (p : Perspective) (a : Attribute) (r : List Nat) :
    decAttr (encAttr p a ++ r) =
      some (match p with
            | .client => a
            | .server => { a with filterParams := [] }, r) := by
  cases p <;>
    simp [decAttr, encAttr,
      decListWith_encListWith encNat decNat (fun x r => decNat_encNat x r)]

@[simp]
theorem attrThrough_client : attrThrough .client = id := rfl

theorem decAttr_encAttr_through (p : Perspective) (a : Attribute)
    (r : List Nat) :
    decAttr (encAttr p a ++ r) = some (attrThrough p a, r) := by
  cases p <;> simp [attrThrough]

theorem deserialize_serialize_schema (f : SerializationType)
    (p : Perspective) (s : ArraySchema) :
    deserializeArraySchema f p (serializeArraySchema f p s) =
      .ok (redactSchema p s) := by
  have hdim := decListWith_encListWith encDim decDim
    (fun x r => decDim_encDim x r) s.dimensions
  have hattr := decListWith_encListWith_map (encAttr p) decAttr
    (attrThrough p) (fun x r => decAttr_encAttr_through p x r) s.attributes
  have hattr0 : decListWith decAttr (encListWith (encAttr p) s.attributes) =
      some (s.attributes.map (attrThrough p), []) := by
    simpa using hattr []
  cases p <;>
    simp_all [deserializeArraySchema, serializeArraySchema, redactSchema,
      attrThrough]

theorem decFieldMeta_encFieldMeta (p : Perspective) (fm : FieldMeta)
    (r : List Nat) :
    decFieldMeta p.opp (encFieldMeta p fm ++ r) = some (metaThrough p fm, r) := by
  cases p <;> simp [decFieldMeta, encFieldMeta, Perspective.opp, metaThrough]

theorem decFieldsLoop_ok (W : List Nat) (rgn : Nat) (target : Query)
    (p : Perspective) :
    ∀ (pairs : List (FieldMeta × List Nat)) (pos : Nat),
      (∀ pr ∈ pairs, pr.1.size = pr.2.length) →
      (∀ pr ∈ pairs, ∃ g,
        target.fields.find? (fun x => x.name == pr.1.name) = some g ∧
          pr.1.size ≤ g.buf.capacity) →
      W.drop pos = (pairs.map Prod.snd).flatten →
      decFieldsLoop rgn 0 target p (pairs.map Prod.fst) pos (W.drop pos) =
        .ok (expectedFields rgn pairs pos) := by
  intro pairs
  induction pairs with
  | nil =>
    intro pos _ _ _
    simp [decFieldsLoop, expectedFields]
  | cons pr prs ih =>
    intro pos hsz hcap hrest
    obtain ⟨g, hfind, hle⟩ := hcap pr (by simp)
    have hn : pr.1.size = pr.2.length := hsz pr (by simp)
    simp only [List.map_cons, List.flatten_cons] at hrest
    have hlen : pr.1.size ≤ (W.drop pos).length := by
      rw [hrest, List.length_append, hn]
      omega
    have hdrop : (W.drop pos).drop pr.1.size = W.drop (pos + pr.1.size) :=
      List.drop_drop pr.1.size pos W
    have hrest2 : W.drop (pos + pr.1.size) = (prs.map Prod.snd).flatten := by
      rw [← hdrop, hrest, hn, List.drop_left]
    have hih := ih (pos + pr.1.size)
      (fun x hx => hsz x (List.mem_cons_of_mem pr hx))
      (fun x hx => hcap x (List.mem_cons_of_mem pr hx)) hrest2
    simp only [List.map_cons, decFieldsLoop, hfind, if_pos hle, if_pos hlen,
      hdrop, hih, expectedFields, Nat.zero_add]

/-- Reading the produced views out of the wire region recovers exactly the
data bytes of each pair. -/
theorem expectedFields_read (W : List Nat) (rgn : Nat) :
    ∀ (pairs : List (FieldMeta × List Nat)) (pos : Nat),
      (∀ pr ∈ pairs, pr.1.size = pr.2.length) →
      W.drop pos = (pairs.map Prod.snd).flatten →
      (expectedFields rgn pairs pos).map
          (fun fld => (W.drop fld.buf.off).take fld.buf.size) =
        pairs.map Prod.snd := by
  intro pairs
  induction pairs with
  | nil =>
    intro pos _ _
    simp [expectedFields]
  | cons pr prs ih =>
    intro pos hsz hrest
    have hn : pr.1.size = pr.2.length := hsz pr (by simp)
    simp only [List.map_cons, List.flatten_cons] at hrest
    have hdrop : (W.drop pos).drop pr.1.size = W.drop (pos + pr.1.size) :=
      List.drop_drop pr.1.size pos W
    have hrest2 : W.drop (pos + pr.1.size) = (prs.map Prod.snd).flatten := by
      rw [← hdrop, hrest, hn, List.drop_left]
    have htake : (W.drop pos).take pr.1.size = pr.2 := by
      rw [hrest, hn, List.take_left]
    have hih := ih (pos + pr.1.size)
      (fun x hx => hsz x (List.mem_cons_of_mem pr hx)) hrest2
    simp only [expectedFields, List.map_cons, htake, hih]

/-- Structural facts about every produced field: it aliases the wire
region without owning it, and carries the metadata's name, size, capacity
and cell count. -/
theorem expectedFields_shape (rgn : Nat) :
    ∀ (pairs : List (FieldMeta × List Nat)) (pos : Nat),
      List.Forall₂
        (fun (pr : FieldMeta × List Nat) (fld : QueryField) =>
          fld.name = pr.1.name ∧ fld.buf.owns = false ∧
            fld.buf.region = rgn ∧ fld.buf.size = pr.1.size ∧
            fld.buf.capacity = pr.1.capacity ∧ fld.cellCount = pr.1.cellCount)
        pairs (expectedFields rgn pairs pos) := by
  intro pairs
  induction pairs with
  | nil => intro pos; simp [expectedFields]
  | cons pr prs ih =>
    intro pos
    exact List.Forall₂.cons ⟨rfl, rfl, rfl, rfl, rfl, rfl⟩ (ih (pos + pr.1.size))

/-- The population loop stops at the first undersized target buffer with
the designed recoverable error carrying that field's name and exact
required size. -/
theorem decFieldsLoop_err (W : List Nat) (rgn : Nat) (target : Query)
    (p : Perspective) (fm : FieldMeta) (ms : List FieldMeta) (g : QueryField)
    (hfind : target.fields.find? (fun x => x.name == fm.name) = some g)
    (hfail : g.buf.capacity < fm.size) :
    ∀ (pairs : List (FieldMeta × List Nat)) (pos : Nat) (tail : List Nat),
      (∀ pr ∈ pairs, pr.1.size = pr.2.length) →
      (∀ pr ∈ pairs, ∃ g',
        target.fields.find? (fun x => x.name == pr.1.name) = some g' ∧
          pr.1.size ≤ g'.buf.capacity) →
      W.drop pos = (pairs.map Prod.snd).flatten ++ tail →
      decFieldsLoop rgn 0 target p (pairs.map Prod.fst ++ fm :: ms) pos
          (W.drop pos) =
        .error (.bufferTooSmall fm.name fm.size) := by
  intro pairs
  induction pairs with
  | nil =>
    intro pos tail _ _ _
    simp only [List.map_nil, List.nil_append, decFieldsLoop, hfind,
      if_neg (Nat.not_le_of_lt hfail)]
  | cons pr prs ih =>
    intro pos tail hsz hcap hrest
    obtain ⟨g', hfind', hle'⟩ := hcap pr (by simp)
    have hn : pr.1.size = pr.2.length := hsz pr (by simp)
    simp only [List.map_cons, List.flatten_cons, List.append_assoc] at hrest
    have hlen : pr.1.size ≤ (W.drop pos).length := by
      rw [hrest, List.length_append, hn]
      omega
    have hdrop : (W.drop pos).drop pr.1.size = W.drop (pos + pr.1.size) :=
      List.drop_drop pr.1.size pos W
    have hrest2 : W.drop (pos + pr.1.size) =
        (prs.map Prod.snd).flatten ++ tail := by
      rw [← hdrop, hrest, hn, List.drop_left]
    have hih := ih (pos + pr.1.size) tail
      (fun x hx => hsz x (List.mem_cons_of_mem pr hx))
      (fun x hx => hcap x (List.mem_cons_of_mem pr hx)) hrest2
    simp only [List.map_cons, List.cons_append, decFieldsLoop, hfind',
      if_pos hle', if_pos hlen, hdrop, List.append_eq, hih]

@[simp]
theorem metaThrough_size (p : Perspective) (fm : FieldMeta) :
    (metaThrough p fm).size = fm.size := by cases p <;> rfl

@[simp]
theorem metaThrough_name (p : Perspective) (fm : FieldMeta) :
    (metaThrough p fm).name = fm.name := by cases p <;> rfl

@[simp]
theorem metaThrough_capacity (p : Perspective) (fm : FieldMeta) :
    (metaThrough p fm).capacity = fm.capacity := by cases p <;> rfl

theorem wirePairs_fst (m : Mem) (p : Perspective) (s : ArraySchema)
    (q : Query) :
    (wirePairs m p s q).map Prod.fst =
      ((presentFields s q).map (fieldMeta m)).map (metaThrough p) := by
  simp [wirePairs, List.map_map]

theorem wirePairs_snd (m : Mem) (p : Perspective) (s : ArraySchema)
    (q : Query) :
    (wirePairs m p s q).map Prod.snd =
      (presentFields s q).map fun fld => readView m fld.buf := by
  simp [wirePairs, List.map_map]

theorem wireOf_serializeQuery (m : Mem) (s : ArraySchema) (q : Query)
    (f : SerializationType) (p : Perspective) :
    wireOf (serializeQuery m s q f p) =
      queryMetaBytes m s q f p ++ wireDatas m s q := by
  simp [wireOf, BufferList.toContiguous, serializeQuery, wireDatas,
    List.map_map]
  rfl

@[simp]
theorem readView_srcOf (rgn : Nat) (w : List Nat) :
    readView (memOf w) (srcOf rgn w) = w := by
  simp [readView, memOf, srcOf]

@[simp]
theorem srcOf_region (rgn : Nat) (w : List Nat) : (srcOf rgn w).region = rgn :=
  rfl

@[simp]
theorem srcOf_off (rgn : Nat) (w : List Nat) : (srcOf rgn w).off = 0 := rfl

/-- Arithmetic shape of the header-segment length: the wire length minus
the data-segment length, as the decoder computes the start position. -/
theorem headerPosArith (a b c d e x : Nat) :
    a + (b + (c + (d + (e + x)))) - x = a + (b + (c + (d + e))) := by
  omega

/-- Unfolding a round trip: deserializing the contiguous wire of a
serialized query reduces to the field population loop over the decoded
metadata table, positioned right after the header segment. -/
theorem deserializeQuery_wire (m : Mem) (s : ArraySchema) (q : Query)
    (f : SerializationType) (p : Perspective) (target : Query) (rgn : Nat) :
    deserializeQuery (memOf (wireOf (serializeQuery m s q f p)))
        (srcOf rgn (wireOf (serializeQuery m s q f p))) f p.opp target =
      match decFieldsLoop rgn 0 target p.opp
          ((wirePairs m p s q).map Prod.fst)
          (queryMetaBytes m s q f p).length (wireDatas m s q) with
      | .error e => .error e
      | .ok flds => .ok ⟨q.layout, q.subarray, q.condition, flds⟩ := by
  have hsub := decListWith_encListWith encPair decPair
    (fun x r => decPair_encPair x r) q.subarray
  have hmeta := decListWith_encListWith_map (encFieldMeta p)
    (decFieldMeta p.opp) (metaThrough p)
    (fun x r => decFieldMeta_encFieldMeta p x r)
    ((presentFields s q).map (fieldMeta m))
  rw [wireOf_serializeQuery]
  simp only [deserializeQuery, readView_srcOf, srcOf_region, srcOf_off,
    queryMetaBytes, List.append_assoc, decHeader_encHeader, decNat_encNat,
    hsub, decStr_encStr, hmeta, List.length_append, headerPosArith,
    wirePairs_fst]

theorem expectedFields_names (rgn : Nat) :
    ∀ (pairs : List (FieldMeta × List Nat)) (pos : Nat),
      (expectedFields rgn pairs pos).map QueryField.name =
        pairs.map fun pr => pr.1.name := by
  intro pairs
  induction pairs with
  | nil => intro pos; rfl
  | cons pr prs ih =>
    intro pos
    simp only [expectedFields, List.map_cons, ih]

theorem expectedFields_sizes (rgn : Nat) :
    ∀ (pairs : List (FieldMeta × List Nat)) (pos : Nat),
      (expectedFields rgn pairs pos).map (fun fld => fld.buf.size) =
        pairs.map fun pr => pr.1.size := by
  intro pairs
  induction pairs with
  | nil => intro pos; rfl
  | cons pr prs ih =>
    intro pos
    simp only [expectedFields, List.map_cons, ih]

theorem expectedFields_caps (rgn : Nat) :
    ∀ (pairs : List (FieldMeta × List Nat)) (pos : Nat),
      (expectedFields rgn pairs pos).map (fun fld => fld.buf.capacity) =
        pairs.map fun pr => pr.1.capacity := by
  intro pairs
  induction pairs with
  | nil => intro pos; rfl
  | cons pr prs ih =>
    intro pos
    simp only [expectedFields, List.map_cons, ih]

theorem expectedFields_cellCounts (rgn : Nat) :
    ∀ (pairs : List (FieldMeta × List Nat)) (pos : Nat),
      (expectedFields rgn pairs pos).map QueryField.cellCount =
        pairs.map fun pr => pr.1.cellCount := by
  intro pairs
  induction pairs with
  | nil => intro pos; rfl
  | cons pr prs ih =>
    intro pos
    simp only [expectedFields, List.map_cons, ih]

/-! ### Round-trip theorems for queries -/

theorem wirePairs_size_eq (m : Mem) (p : Perspective) (s : ArraySchema)
    (q : Query) :
    ∀ pr ∈ wirePairs m p s q, pr.1.size = pr.2.length := by
  intro pr hpr
  simp only [wirePairs, List.mem_map] at hpr
  obtain ⟨fld, _, rfl⟩ := hpr
  simp [fieldMeta]

theorem wire_drop_metaBytes (m : Mem) (s : ArraySchema) (q : Query)
    (f : SerializationType) (p : Perspective) :
    (wireOf (serializeQuery m s q f p)).drop
        (queryMetaBytes m s q f p).length =
      ((wirePairs m p s q).map Prod.snd).flatten := by
  rw [wireOf_serializeQuery, List.drop_left, wirePairs_snd]
  rfl

theorem targetAcceptsWire_pairs (m : Mem) (p : Perspective)
    (s : ArraySchema) (q target : Query)
    (hcap : targetAcceptsWire m s q target) :
    ∀ pr ∈ wirePairs m p s q, ∃ g,
      target.fields.find? (fun x => x.name == pr.1.name) = some g ∧
        pr.1.size ≤ g.buf.capacity := by
  intro pr hpr
  simp only [wirePairs, List.mem_map] at hpr
  obtain ⟨fld, hfld, rfl⟩ := hpr
  obtain ⟨g, hg, hle⟩ := hcap fld hfld
  exact ⟨g, by simpa [fieldMeta] using hg, by simpa [fieldMeta] using hle⟩

/-- Round-trip success, pairs-level hypothesis: the target has a
sufficient matching buffer for every entry of the wire's field table. -/
theorem deserializeQuery_roundtrip_ok' (m : Mem) (s : ArraySchema)
    (q : Query) (f : SerializationType) (p : Perspective) (target : Query)
    (rgn : Nat)
    (hcap' : ∀ pr ∈ wirePairs m p s q, ∃ g,
      target.fields.find? (fun x => x.name == pr.1.name) = some g ∧
        pr.1.size ≤ g.buf.capacity) :
    deserializeQuery (memOf (wireOf (serializeQuery m s q f p)))
        (srcOf rgn (wireOf (serializeQuery m s q f p))) f p.opp target =
      .ok ⟨q.layout, q.subarray, q.condition,
        expectedFields rgn (wirePairs m p s q)
          (queryMetaBytes m s q f p).length⟩ := by
  have hsz := wirePairs_size_eq m p s q
  have hrest := wire_drop_metaBytes m s q f p
  have hloop := decFieldsLoop_ok (wireOf (serializeQuery m s q f p)) rgn
    target p.opp (wirePairs m p s q) (queryMetaBytes m s q f p).length
    hsz hcap' hrest
  have hrest2 : (wireOf (serializeQuery m s q f p)).drop
      (queryMetaBytes m s q f p).length = wireDatas m s q := by
    rw [hrest, wirePairs_snd]
    rfl
  rw [deserializeQuery_wire, ← hrest2, hloop]

/-- Round-trip success: when the target accepts the wire, deserializing
the contiguous wire of a serialized query succeeds and populates exactly
the loop's expected fields. -/
theorem deserializeQuery_roundtrip_ok (m : Mem) (s : ArraySchema)
    (q : Query) (f : SerializationType) (p : Perspective) (target : Query)
    (rgn : Nat) (hcap : targetAcceptsWire m s q target) :
    deserializeQuery (memOf (wireOf (serializeQuery m s q f p)))
        (srcOf rgn (wireOf (serializeQuery m s q f p))) f p.opp target =
      .ok ⟨q.layout, q.subarray, q.condition,
        expectedFields rgn (wirePairs m p s q)
          (queryMetaBytes m s q f p).length⟩ := by
  have hsz := wirePairs_size_eq m p s q
  have hcap' := targetAcceptsWire_pairs m p s q target hcap
  have hrest := wire_drop_metaBytes m s q f p
  have hloop := decFieldsLoop_ok (wireOf (serializeQuery m s q f p)) rgn
    target p.opp (wirePairs m p s q) (queryMetaBytes m s q f p).length
    hsz hcap' hrest
  have hrest2 : (wireOf (serializeQuery m s q f p)).drop
      (queryMetaBytes m s q f p).length = wireDatas m s q := by
    rw [hrest, wirePairs_snd]
    rfl
  rw [deserializeQuery_wire, ← hrest2, hloop]

/-- Auxiliary form of the query round trip, with a propositional
capacity hypothesis and an existential conclusion. -/
theorem queryRoundtripContentAux (m : Mem) (s : ArraySchema) (q : Query)
    (f : SerializationType) (p : Perspective) (target : Query) (rgn : Nat)
    (hcap : targetAcceptsWire m s q target) :
    ∃ q', deserializeQuery (memOf (wireOf (serializeQuery m s q f p)))
        (srcOf rgn (wireOf (serializeQuery m s q f p))) f p.opp target =
          .ok q' ∧
      q'.fields.map
          (fun fld => readView (memOf (wireOf (serializeQuery m s q f p)))
            fld.buf) =
        (presentFields s q).map (fun fld => readView m fld.buf) ∧
      q'.fields.map QueryField.name =
        (presentFields s q).map QueryField.name := by
  have hsz := wirePairs_size_eq m p s q
  have hrest := wire_drop_metaBytes m s q f p
  rw [deserializeQuery_roundtrip_ok m s q f p target rgn hcap]
  refine ⟨_, rfl, ?_, ?_⟩
  · have hread := expectedFields_read (wireOf (serializeQuery m s q f p))
      rgn (wirePairs m p s q) (queryMetaBytes m s q f p).length hsz hrest
    calc (expectedFields rgn (wirePairs m p s q)
            (queryMetaBytes m s q f p).length).map
          (fun fld => readView (memOf (wireOf (serializeQuery m s q f p)))
            fld.buf)
        = (expectedFields rgn (wirePairs m p s q)
            (queryMetaBytes m s q f p).length).map
          (fun fld => ((wireOf (serializeQuery m s q f p)).drop
            fld.buf.off).take fld.buf.size) := rfl
      _ = (wirePairs m p s q).map Prod.snd := hread
      _ = (presentFields s q).map (fun fld => readView m fld.buf) :=
          wirePairs_snd m p s q
  · rw [expectedFields_names]
    simp [wirePairs, List.map_map, fieldMeta]

/-- The retry's capacity bump preserves field names and changes only the
capacity of the buffers bearing the given name. -/
theorem find?_map_namePreserving (l : List QueryField)
    (fc : QueryField → QueryField) (hn : ∀ g, (fc g).name = g.name)
    (n' : List Nat) :
    (l.map fc).find? (fun x => x.name == n') =
      (l.find? (fun x => x.name == n')).map fc := by
  have hpred : ((fun x : QueryField => x.name == n') ∘ fc) =
      (fun x : QueryField => x.name == n') := by
    funext g
    rw [Function.comp_apply, hn]
  rw [List.find?_map, hpred]

theorem find?_setFieldCapacity (target : Query) (nm : List Nat) (cap : Nat)
    (n' : List Nat) :
    (setFieldCapacity target nm cap).fields.find? (fun x => x.name == n') =
      (target.fields.find? (fun x => x.name == n')).map
        (fun g => if g.name == nm
          then { g with buf := { g.buf with capacity := cap } } else g) := by
  exact find?_map_namePreserving target.fields _
    (fun g => by by_cases h : (g.name == nm) = true <;> simp [h]) n'

/-- Auxiliary form of the undersized-buffer contract, with
propositional hypotheses. -/
theorem undersizedRetryAux (m : Mem) (s : ArraySchema) (q : Query)
    (f : SerializationType) (p : Perspective) (target : Query) (rgn : Nat)
    (prePairs postPairs : List (FieldMeta × List Nat)) (fm : FieldMeta)
    (d : List Nat) (g : QueryField)
    (hsplit : wirePairs m p s q = prePairs ++ (fm, d) :: postPairs)
    (hfind : target.fields.find? (fun x => x.name == fm.name) = some g)
    (hfail : g.buf.capacity < fm.size)
    (hpre : ∀ pr ∈ prePairs, ∃ g',
      target.fields.find? (fun x => x.name == pr.1.name) = some g' ∧
        pr.1.size ≤ g'.buf.capacity)
    (hpost : ∀ pr ∈ postPairs, ∃ g',
      target.fields.find? (fun x => x.name == pr.1.name) = some g' ∧
        pr.1.size ≤ g'.buf.capacity)
    (hname : ∀ pr ∈ prePairs ++ postPairs, pr.1.name ≠ fm.name) :
    deserializeQuery (memOf (wireOf (serializeQuery m s q f p)))
        (srcOf rgn (wireOf (serializeQuery m s q f p))) f p.opp target =
      .error (.bufferTooSmall fm.name fm.size) ∧
    ∃ q', deserializeQuery (memOf (wireOf (serializeQuery m s q f p)))
        (srcOf rgn (wireOf (serializeQuery m s q f p))) f p.opp
        (setFieldCapacity target fm.name fm.size) = .ok q' := by
  have hszAll := wirePairs_size_eq m p s q
  have hrest := wire_drop_metaBytes m s q f p
  have hrest2 : (wireOf (serializeQuery m s q f p)).drop
      (queryMetaBytes m s q f p).length = wireDatas m s q := by
    rw [hrest, wirePairs_snd]
    rfl
  constructor
  · have hszPre : ∀ pr ∈ prePairs, pr.1.size = pr.2.length := fun pr hpr =>
      hszAll pr (hsplit ▸ List.mem_append_left _ hpr)
    have hrestPre : (wireOf (serializeQuery m s q f p)).drop
        (queryMetaBytes m s q f p).length =
        (prePairs.map Prod.snd).flatten ++
          (d ++ (postPairs.map Prod.snd).flatten) := by
      rw [hrest, hsplit]
      simp [List.map_append, List.flatten_append]
    have herr := decFieldsLoop_err (wireOf (serializeQuery m s q f p)) rgn
      target p.opp fm (postPairs.map Prod.fst) g hfind hfail prePairs
      (queryMetaBytes m s q f p).length
      (d ++ (postPairs.map Prod.snd).flatten) hszPre hpre hrestPre
    have hmetas : (wirePairs m p s q).map Prod.fst =
        prePairs.map Prod.fst ++ fm :: postPairs.map Prod.fst := by
      rw [hsplit]
      simp
    rw [deserializeQuery_wire, hmetas, ← hrest2, herr]
  · have hcap' : ∀ pr ∈ wirePairs m p s q, ∃ g',
        (setFieldCapacity target fm.name fm.size).fields.find?
          (fun x => x.name == pr.1.name) = some g' ∧
          pr.1.size ≤ g'.buf.capacity := by
      intro pr hpr
      rw [hsplit] at hpr
      rcases List.mem_append.mp hpr with hl | hr
      · obtain ⟨g', hg', hle'⟩ := hpre pr hl
        have hne : pr.1.name ≠ fm.name := hname pr (List.mem_append_left _ hl)
        have hgname : g'.name = pr.1.name := by
          have := List.find?_some hg'
          simpa using this
        refine ⟨g', ?_, hle'⟩
        rw [find?_setFieldCapacity, hg']
        simp [hgname, hne]
      · rcases List.mem_cons.mp hr with heq | hpost'
        · subst heq
          have hgname : g.name = fm.name := by
            have := List.find?_some hfind
            simpa using this
          refine ⟨{ g with buf := { g.buf with capacity := fm.size } }, ?_, ?_⟩
          · rw [find?_setFieldCapacity, hfind]
            simp [hgname]
          · simp
        · obtain ⟨g', hg', hle'⟩ := hpost pr hpost'
          have hne : pr.1.name ≠ fm.name :=
            hname pr (List.mem_append_right _ hpost')
          have hgname : g'.name = pr.1.name := by
            have := List.find?_some hg'
            simpa using this
          refine ⟨g', ?_, hle'⟩
          rw [find?_setFieldCapacity, hg']
          simp [hgname, hne]
    exact ⟨_, deserializeQuery_roundtrip_ok' m s q f p
      (setFieldCapacity target fm.name fm.size) rgn hcap'⟩

/-- Every field a successful population loop produces is a non-owning
view into the source region. -/
theorem decFieldsLoop_region_owns (rgn roff : Nat) (target : Query)
    (p : Perspective) :
    ∀ (metas : List FieldMeta) (pos : Nat) (rest : List Nat)
      (flds : List QueryField),
      decFieldsLoop rgn roff target p metas pos rest = .ok flds →
      ∀ fld ∈ flds, fld.buf.owns = false ∧ fld.buf.region = rgn := by
  intro metas
  induction metas with
  | nil =>
    intro pos rest flds h fld hfld
    simp only [decFieldsLoop] at h
    injection h with h
    subst h
    exact absurd hfld (List.not_mem_nil fld)
  | cons fm ms ih =>
    intro pos rest flds h fld hfld
    cases hfind : target.fields.find? (fun x => x.name == fm.name) with
    | none =>
      simp only [decFieldsLoop, hfind] at h
      exact Except.noConfusion h
    | some g =>
      simp only [decFieldsLoop, hfind] at h
      by_cases hle : fm.size ≤ g.buf.capacity
      · rw [if_pos hle] at h
        by_cases hlen : fm.size ≤ rest.length
        · rw [if_pos hlen] at h
          cases hloop : decFieldsLoop rgn roff target p ms (pos + fm.size)
              (rest.drop fm.size) with
          | error e => rw [hloop] at h; exact Except.noConfusion h
          | ok flds' =>
            rw [hloop] at h
            injection h with h
            subst h
            rcases List.mem_cons.mp hfld with rfl | hmem
            · exact ⟨rfl, rfl⟩
            · exact ih (pos + fm.size) (rest.drop fm.size) flds' hloop fld hmem
        · rw [if_neg hlen] at h
          exact Except.noConfusion h
      · rw [if_neg hle] at h
        exact Except.noConfusion h

/-- Any successful query deserialization yields fields whose buffers are
non-owning views into the caller-supplied source region. -/
theorem deserializeQuery_fields_alias (m : Mem) (src : BufferView)
    (f : SerializationType) (p : Perspective) (target q' : Query)
    (h : deserializeQuery m src f p target = .ok q') :
    ∀ fld ∈ q'.fields, fld.buf.owns = false ∧ fld.buf.region = src.region := by
  simp only [deserializeQuery] at h
  cases h0 : decHeader f (readView m src) with
  | none => simp only [h0] at h; exact Except.noConfusion h
  | some r0 =>
    simp only [h0] at h
    cases h1 : decNat r0 with
    | none => simp only [h1] at h; exact Except.noConfusion h
    | some pr1 =>
      obtain ⟨lay, r1⟩ := pr1
      simp only [h1] at h
      cases h2 : decListWith decPair r1 with
      | none => simp only [h2] at h; exact Except.noConfusion h
      | some pr2 =>
        obtain ⟨sub, r2⟩ := pr2
        simp only [h2] at h
        cases h3 : decStr r2 with
        | none => simp only [h3] at h; exact Except.noConfusion h
        | some pr3 =>
          obtain ⟨cnd, r3⟩ := pr3
          simp only [h3] at h
          cases h4 : decListWith (decFieldMeta p) r3 with
          | none => simp only [h4] at h; exact Except.noConfusion h
          | some pr4 =>
            obtain ⟨metas, r4⟩ := pr4
            simp only [h4] at h
            cases h5 : decFieldsLoop src.region src.off target p metas
                ((readView m src).length - r4.length) r4 with
            | error e => simp only [h5] at h; exact Except.noConfusion h
            | ok flds =>
              simp only [h5] at h
              injection h with h
              subst h
              exact decFieldsLoop_region_owns src.region src.off target p
                metas ((readView m src).length - r4.length) r4 flds h5

/-- Auxiliary form of the zero-copy aliasing contract, over an explicit
successfully populated query. -/
theorem zeroCopyAliasingAux (m : Mem) (src : BufferView)
    (f : SerializationType) (p : Perspective) (target q' : Query)
    (h : deserializeQuery m src f p target = .ok q') :
    (∀ fld ∈ q'.fields, fld.buf.owns = false ∧ fld.buf.region = src.region) ∧
    (∀ m' : Mem, m' src.region = m src.region →
      q'.fields.map (fun fld => readView m' fld.buf) =
        q'.fields.map (fun fld => readView m fld.buf)) := by
  have halias := deserializeQuery_fields_alias m src f p target q' h
  refine ⟨halias, ?_⟩
  intro m' hm
  apply List.map_congr_left
  intro fld hfld
  have hr := (halias fld hfld).2
  simp [readView, hr, hm]

/-- Point of origin of each produced field: it comes from some pair of
the wire table, with that pair's size, capacity and cell count. -/
theorem expectedFields_mem (rgn : Nat) :
    ∀ (pairs : List (FieldMeta × List Nat)) (pos : Nat),
      ∀ fld ∈ expectedFields rgn pairs pos, ∃ pr ∈ pairs,
        fld.buf.size = pr.1.size ∧ fld.buf.capacity = pr.1.capacity ∧
          fld.cellCount = pr.1.cellCount := by
  intro pairs
  induction pairs with
  | nil =>
    intro pos fld hfld
    exact absurd hfld (List.not_mem_nil fld)
  | cons pr prs ih =>
    intro pos fld hfld
    rcases List.mem_cons.mp hfld with rfl | hmem
    · exact ⟨pr, by simp, rfl, rfl, rfl⟩
    · obtain ⟨pr', hpr', hprops⟩ := ih (pos + pr.1.size) fld hmem
      exact ⟨pr', List.mem_cons_of_mem pr hpr', hprops⟩

@[simp]
theorem metaThrough_server : metaThrough .server = id := rfl

/-- Reading the populated fields of a round trip out of the wire memory
recovers exactly the original fields' byte contents. -/
theorem expectedFields_content (m : Mem) (s : ArraySchema) (q : Query)
    (f : SerializationType) (p : Perspective) (rgn : Nat) :
    (expectedFields rgn (wirePairs m p s q)
        (queryMetaBytes m s q f p).length).map
      (fun fld => readView (memOf (wireOf (serializeQuery m s q f p)))
        fld.buf) =
    (presentFields s q).map (fun fld => readView m fld.buf) := by
  have hsz := wirePairs_size_eq m p s q
  have hrest := wire_drop_metaBytes m s q f p
  have hread := expectedFields_read (wireOf (serializeQuery m s q f p))
    rgn (wirePairs m p s q) (queryMetaBytes m s q f p).length hsz hrest
  calc (expectedFields rgn (wirePairs m p s q)
          (queryMetaBytes m s q f p).length).map
        (fun fld => readView (memOf (wireOf (serializeQuery m s q f p)))
          fld.buf)
      = (expectedFields rgn (wirePairs m p s q)
          (queryMetaBytes m s q f p).length).map
        (fun fld => ((wireOf (serializeQuery m s q f p)).drop
          fld.buf.off).take fld.buf.size) := rfl
    _ = (wirePairs m p s q).map Prod.snd := hread
    _ = (presentFields s q).map (fun fld => readView m fld.buf) :=
        wirePairs_snd m p s q

/-- Attaching a membership fact to every left element of a Forall₂. -/
theorem forallTwo_of_mem {α β : Type _} {R : α → β → Prop} {P : α → Prop} :
    ∀ {l : List α} {l' : List β}, List.Forall₂ R l l' → (∀ a ∈ l, P a) →
      List.Forall₂ (fun a b => P a ∧ R a b) l l' := by
  intro l l' h hp
  induction h with
  | nil => exact .nil
  | cons hr _ ih =>
    exact .cons ⟨hp _ (by simp), hr⟩
      (ih fun a ha => hp a (List.mem_cons_of_mem _ ha))

/-- The names of the present fields are the schema-declared field names
that the query holds a buffer for, in schema order. -/
theorem presentFields_names (s : ArraySchema) (q : Query) :
    (presentFields s q).map QueryField.name =
      (schemaFieldNames s).filter
        (fun n => q.fields.any fun g => g.name == n) := by
  show ((schemaFieldNames s).filterMap
      (fun n => q.fields.find? fun g => g.name == n)).map QueryField.name = _
  induction schemaFieldNames s with
  | nil => rfl
  | cons n ns ih =>
    simp only [List.filterMap_cons, List.filter_cons]
    cases hf : q.fields.find? (fun g => g.name == n) with
    | none =>
      have hany : (q.fields.any fun g => g.name == n) = false := by
        rw [List.any_eq_false]
        intro g hg
        have := List.find?_eq_none.mp hf g hg
        simpa using this
      rw [hany]
      simpa using ih
    | some g =>
      have hname : g.name = n := by
        have := List.find?_some hf
        simpa using this
      have hany : (q.fields.any fun g => g.name == n) = true := by
        rw [List.any_eq_true]
        exact ⟨g, List.mem_of_find?_eq_some hf, by simpa using hname⟩
      rw [hany]
      simpa [hname] using ih

/-- Claim C7: segment ordering determinism — two serializations of the
same unmutated query produce identical buffer lists (same segment count,
per-segment bytes and order), the data segments being exactly the present
fields' buffers in schema-declared field order. -/
theorem C7_segment_order_determinism (m : Mem) (s : ArraySchema)
    (q : Query) (f : SerializationType) (p : Perspective) :
    serializeQuery m s q f p = serializeQuery m s q f p ∧
    (serializeQuery m s q f p).segments =
      Buffer.mk (queryMetaBytes m s q f p) true ::
        (presentFields s q).map
          (fun fld => Buffer.mk (readView m fld.buf) false) ∧
    (presentFields s q).map QueryField.name =
      (schemaFieldNames s).filter
        (fun n => q.fields.any fun g => g.name == n) :=
  ⟨rfl, rfl, presentFields_names s q⟩

/-- Auxiliary form of the perspective asymmetry property, with
propositional hypotheses and existential conclusions. -/
theorem perspectiveAsymmetryAux (m : Mem) (s : ArraySchema) (q : Query)
    (f : SerializationType) (target : Query) (rgn : Nat)
    (hcap : targetAcceptsWire m s q target) :
    ((∀ fld ∈ presentFields s q, fld.buf.size = 0) →
      ∃ q', deserializeQuery
          (memOf (wireOf (serializeQuery m s q f .client)))
          (srcOf rgn (wireOf (serializeQuery m s q f .client))) f .server
          target = .ok q' ∧
        (∀ fld' ∈ q'.fields, fld'.buf.size = 0 ∧ fld'.cellCount = 0) ∧
        q'.fields.map (fun fld => fld.buf.capacity) =
          (presentFields s q).map (fun fld => fld.buf.capacity)) ∧
    ((∀ fld ∈ presentFields s q, fld.cellCount ≤ fld.buf.capacity) →
      ∃ q'', deserializeQuery
          (memOf (wireOf (serializeQuery m s q f .server)))
          (srcOf rgn (wireOf (serializeQuery m s q f .server))) f .client
          target = .ok q'' ∧
        q''.fields.map (fun fld => readView
            (memOf (wireOf (serializeQuery m s q f .server))) fld.buf) =
          (presentFields s q).map (fun fld => readView m fld.buf) ∧
        List.Forall₂ (fun fld fld'' => fld''.cellCount = fld.cellCount ∧
            fld''.cellCount ≤ fld.buf.capacity)
          (presentFields s q) q''.fields) := by
  constructor
  · intro hreq
    refine ⟨_, deserializeQuery_roundtrip_ok m s q f .client target rgn hcap,
      ?_, ?_⟩
    · intro fld' hfld'
      obtain ⟨pr, hpr, hsize, _, hcc⟩ := expectedFields_mem rgn
        (wirePairs m .client s q) (queryMetaBytes m s q f .client).length
        fld' hfld'
      simp only [wirePairs, List.mem_map] at hpr
      obtain ⟨fld, hfld, rfl⟩ := hpr
      have hzero : fld.buf.size = 0 := hreq fld hfld
      constructor
      · rw [hsize]
        simp [metaThrough, fieldMeta, readView, hzero]
      · rw [hcc]
        simp [metaThrough]
    · show (expectedFields rgn (wirePairs m .client s q)
          (queryMetaBytes m s q f .client).length).map
          (fun fld => fld.buf.capacity) = _
      rw [expectedFields_caps]
      simp [wirePairs, List.map_map, fieldMeta]
  · intro hcc
    refine ⟨_, deserializeQuery_roundtrip_ok m s q f .server target rgn hcap,
      expectedFields_content m s q f .server rgn, ?_⟩
    have hshape := expectedFields_shape rgn (wirePairs m .server s q)
      (queryMetaBytes m s q f .server).length
    rw [wirePairs] at hshape
    have hshape2 := List.forall₂_map_left_iff.mp hshape
    have hshape3 := forallTwo_of_mem hshape2 hcc
    refine hshape3.imp ?_
    intro fld fld'' hprops
    obtain ⟨hle, _, _, _, _, _, hcceq⟩ := hprops
    refine ⟨?_, ?_⟩
    · simpa [fieldMeta] using hcceq
    · have : fld''.cellCount = fld.cellCount := by
        simpa [fieldMeta] using hcceq
      rw [this]
      exact hle

theorem targetAcceptsWireB_spec (m : Mem) (s : ArraySchema)
    (q target : Query) (h : targetAcceptsWireB m s q target = true) :
    targetAcceptsWire m s q target := by
  intro fld hfld
  have hx := List.all_eq_true.mp h fld hfld
  cases hf : target.fields.find? (fun x => x.name == fld.name) with
  | none =>
    rw [hf] at hx
    exact absurd hx (by simp)
  | some g =>
    rw [hf] at hx
    exact ⟨g, rfl, by simpa using hx⟩

theorem pairsAcceptB_spec (target : Query)
    (pairs : List (FieldMeta × List Nat))
    (h : pairsAcceptB target pairs = true) :
    ∀ pr ∈ pairs, ∃ g,
      target.fields.find? (fun x => x.name == pr.1.name) = some g ∧
        pr.1.size ≤ g.buf.capacity := by
  intro pr hpr
  have hx := List.all_eq_true.mp h pr hpr
  cases hf : target.fields.find? (fun x => x.name == pr.1.name) with
  | none =>
    rw [hf] at hx
    exact absurd hx (by simp)
  | some g =>
    rw [hf] at hx
    exact ⟨g, rfl, by simpa using hx⟩

/-- Claim C2: undersized-buffer contract — deserializing a serialized
query into a target whose single undersized attribute buffer cannot hold
the payload's bytes fails with the recoverable buffer-too-small error
reporting the exact required size, and re-invoking deserialization after
reallocating that buffer to exactly the reported size succeeds. -/
theorem C2_undersized_buffer_retry (m : Mem) (s : ArraySchema) (q : Query)
    (f : SerializationType) (p : Perspective) (target : Query) (rgn : Nat)
    (prePairs postPairs : List (FieldMeta × List Nat)) (fm : FieldMeta)
    (d : List Nat) (g : QueryField)
    (hsplit : wirePairs m p s q = prePairs ++ (fm, d) :: postPairs)
    (hfind : target.fields.find? (fun x => x.name == fm.name) = some g)
    (hfail : g.buf.capacity < fm.size)
    (hpre : pairsAcceptB target prePairs = true)
    (hpost : pairsAcceptB target postPairs = true)
    (hname : (prePairs ++ postPairs).all
      (fun pr => pr.1.name != fm.name) = true) :
    deserializeQuery (memOf (wireOf (serializeQuery m s q f p)))
        (srcOf rgn (wireOf (serializeQuery m s q f p))) f p.opp target =
      .error (.bufferTooSmall fm.name fm.size) ∧
    (deserializeQuery (memOf (wireOf (serializeQuery m s q f p)))
        (srcOf rgn (wireOf (serializeQuery m s q f p))) f p.opp
        (setFieldCapacity target fm.name fm.size)).isOk = true := by
  have hname' : ∀ pr ∈ prePairs ++ postPairs, pr.1.name ≠ fm.name := by
    intro pr hpr
    exact bne_iff_ne.mp (List.all_eq_true.mp hname pr hpr)
  obtain ⟨h1, q', h2⟩ := undersizedRetryAux m s q f p target rgn prePairs
    postPairs fm d g hsplit hfind hfail
    (pairsAcceptB_spec target prePairs hpre)
    (pairsAcceptB_spec target postPairs hpost) hname'
  refine ⟨h1, ?_⟩
  rw [h2]
  rfl

/-- Claim C3: query round-trip preserves buffer content — for a query
whose attribute buffers hold some byte patterns, serializing and then
deserializing the wire into a target with sufficient matching capacities
succeeds and yields buffers whose contents equal the original patterns. -/
theorem C3_query_roundtrip_content (m : Mem) (s : ArraySchema) (q : Query)
    (f : SerializationType) (p : Perspective) (target : Query) (rgn : Nat)
    (hcap : targetAcceptsWireB m s q target = true) :
    (deserializeQuery (memOf (wireOf (serializeQuery m s q f p)))
      (srcOf rgn (wireOf (serializeQuery m s q f p))) f p.opp target).isOk =
        true ∧
    (fieldsOfResult (deserializeQuery (memOf (wireOf (serializeQuery m s q f p)))
        (srcOf rgn (wireOf (serializeQuery m s q f p))) f p.opp target)).map
        (fun fld => readView (memOf (wireOf (serializeQuery m s q f p)))
          fld.buf) =
      (presentFields s q).map (fun fld => readView m fld.buf) ∧
    (fieldsOfResult (deserializeQuery (memOf (wireOf (serializeQuery m s q f p)))
        (srcOf rgn (wireOf (serializeQuery m s q f p))) f p.opp target)).map
        QueryField.name =
      (presentFields s q).map QueryField.name := by
  obtain ⟨q', hq, hcontent, hnames⟩ := queryRoundtripContentAux m s q f p
    target rgn (targetAcceptsWireB_spec m s q target hcap)
  rw [hq]
  exact ⟨rfl, hcontent, hnames⟩

/-- Claim C4: zero-copy aliasing contract — a successful query
deserialization allocates no private copy: every populated attribute data
buffer is a non-owning view aliasing the caller-supplied source region,
and the readable contents depend only on that region, so reads stay valid
exactly as long as the source bytes outlive the query. -/
theorem C4_zero_copy_aliasing (m : Mem) (src : BufferView)
    (f : SerializationType) (p : Perspective) (target : Query)
    (h : (deserializeQuery m src f p target).isOk = true) :
    aliasesSource (fieldsOfResult (deserializeQuery m src f p target)) src =
      true ∧
    (∀ m' : Mem, m' src.region = m src.region →
      (fieldsOfResult (deserializeQuery m src f p target)).map
          (fun fld => readView m' fld.buf) =
        (fieldsOfResult (deserializeQuery m src f p target)).map
          (fun fld => readView m fld.buf)) := by
  cases hdq : deserializeQuery m src f p target with
  | error e =>
    rw [hdq] at h
    exact absurd h (by simp [Except.isOk, Except.toBool])
  | ok q' =>
    obtain ⟨ha, hb⟩ := zeroCopyAliasingAux m src f p target q' hdq
    refine ⟨?_, ?_⟩
    · apply List.all_eq_true.mpr
      intro fld hfld
      simp only [fieldsOfResult] at hfld
      obtain ⟨ho, hr⟩ := ha fld hfld
      simp [ho, hr]
    · intro m' hm
      simpa [fieldsOfResult] using hb m' hm

/-- Claim C6: perspective asymmetry — a request-shaped query (all result
buffers unfilled) serialized from the client side deserializes on the
server side into empty result buffers sized per the request with zero
cell counts; a reply-shaped query serialized from the server side
deserializes on the client side into filled buffers carrying the original
contents, with final cell counts equal to the server's counts and at most
the original buffer capacities. -/
theorem C6_perspective_asymmetry (m : Mem) (s : ArraySchema) (q : Query)
    (f : SerializationType) (target : Query) (rgn : Nat)
    (hcap : targetAcceptsWireB m s q target = true) :
    ((presentFields s q).all (fun fld => fld.buf.size == 0) = true →
      (deserializeQuery (memOf (wireOf (serializeQuery m s q f .client)))
        (srcOf rgn (wireOf (serializeQuery m s q f .client))) f .server
        target).isOk = true ∧
      (fieldsOfResult (deserializeQuery
          (memOf (wireOf (serializeQuery m s q f .client)))
          (srcOf rgn (wireOf (serializeQuery m s q f .client))) f .server
          target)).all
        (fun fld => fld.buf.size == 0 && fld.cellCount == 0) = true ∧
      (fieldsOfResult (deserializeQuery
          (memOf (wireOf (serializeQuery m s q f .client)))
          (srcOf rgn (wireOf (serializeQuery m s q f .client))) f .server
          target)).map (fun fld => fld.buf.capacity) =
        (presentFields s q).map (fun fld => fld.buf.capacity)) ∧
    ((presentFields s q).all
        (fun fld => fld.cellCount ≤ fld.buf.capacity) = true →
      (deserializeQuery (memOf (wireOf (serializeQuery m s q f .server)))
        (srcOf rgn (wireOf (serializeQuery m s q f .server))) f .client
        target).isOk = true ∧
      (fieldsOfResult (deserializeQuery
          (memOf (wireOf (serializeQuery m s q f .server)))
          (srcOf rgn (wireOf (serializeQuery m s q f .server))) f .client
          target)).map (fun fld => readView
            (memOf (wireOf (serializeQuery m s q f .server))) fld.buf) =
        (presentFields s q).map (fun fld => readView m fld.buf) ∧
      List.Forall₂ (fun fld fld'' => fld''.cellCount = fld.cellCount ∧
          fld''.cellCount ≤ fld.buf.capacity)
        (presentFields s q)
        (fieldsOfResult (deserializeQuery
          (memOf (wireOf (serializeQuery m s q f .server)))
          (srcOf rgn (wireOf (serializeQuery m s q f .server))) f .client
          target))) := by
  obtain ⟨haux1, haux2⟩ := perspectiveAsymmetryAux m s q f target rgn
    (targetAcceptsWireB_spec m s q target hcap)
  constructor
  · intro hreq
    have hreq' : ∀ fld ∈ presentFields s q, fld.buf.size = 0 := by
      intro fld hfld
      simpa using List.all_eq_true.mp hreq fld hfld
    obtain ⟨q', hq, hprops, hcaps⟩ := haux1 hreq'
    rw [hq]
    refine ⟨rfl, ?_, hcaps⟩
    apply List.all_eq_true.mpr
    intro fld hfld
    obtain ⟨hsz, hcc⟩ := hprops fld hfld
    simp [hsz, hcc]
  · intro hwf
    have hwf' : ∀ fld ∈ presentFields s q, fld.cellCount ≤ fld.buf.capacity := by
      intro fld hfld
      simpa using List.all_eq_true.mp hwf fld hfld
    obtain ⟨q'', hq, hcontent, hforall⟩ := haux2 hwf'
    rw [hq]
    exact ⟨rfl, hcontent, hforall⟩

/-- Claim C8: non-empty domain emptiness round-trip — serializing the
non-empty domain with the emptiness flag set, whatever the bounds
content, and deserializing the result yields the emptiness flag set; the
decoder does not touch the caller's bounds storage in that case. -/
theorem C8_nonempty_domain_emptiness (arr : ArrayObj)
    (bounds : List (Nat × Nat)) (f : SerializationType)
    (p p' : Perspective) (storage : List (Nat × Nat)) :
    (deserializeArrayNonemptyDomain arr f p'
        (serializeArrayNonemptyDomain arr bounds true f p).data storage).1 =
      .ok true := by
  simp [deserializeArrayNonemptyDomain, serializeArrayNonemptyDomain,
    decBool, encBool]

/-- Claim C9: decode atomicity — a failing schema or non-empty-domain
deserialization leaves its target untouched: the domain decoder returns
the caller's storage unmodified, and the schema decoder leaves the out
handle unset. -/
theorem C9_decode_atomicity (arr : ArrayObj) (f : SerializationType)
    (p : Perspective) (bytes : List Nat) (storage : List (Nat × Nat))
    (out : Option ArraySchema) :
    ((deserializeArrayNonemptyDomain arr f p bytes storage).1.isOk = false →
      (deserializeArrayNonemptyDomain arr f p bytes storage).2 = storage) ∧
    ((deserializeArraySchemaInto f p bytes out).1.isOk = false →
      (deserializeArraySchemaInto f p bytes out).2 = out) := by
  constructor
  · intro herr
    cases h0 : decHeader f bytes with
    | none => simp [deserializeArrayNonemptyDomain, h0]
    | some r0 =>
      cases h1 : decBool r0 with
      | none => simp [deserializeArrayNonemptyDomain, h0, h1]
      | some pr =>
        obtain ⟨b, r1⟩ := pr
        cases b with
        | true =>
          exfalso
          simp [deserializeArrayNonemptyDomain, h0, h1, Except.isOk,
            Except.toBool] at herr
        | false =>
          cases h2 : decListWith decPair r1 with
          | none => simp [deserializeArrayNonemptyDomain, h0, h1, h2]
          | some pr2 =>
            obtain ⟨bounds, r2⟩ := pr2
            by_cases hlen : bounds.length = arr.dims
            · exfalso
              simp [deserializeArrayNonemptyDomain, h0, h1, h2, hlen,
                Except.isOk, Except.toBool] at herr
            · simp [deserializeArrayNonemptyDomain, h0, h1, h2, hlen]
  · intro herr
    cases hs : deserializeArraySchema f p bytes with
    | ok sc =>
      exfalso
      simp [deserializeArraySchemaInto, hs, Except.isOk, Except.toBool]
        at herr
    | error e => simp [deserializeArraySchemaInto, hs]

/-- Claim C5: format rejection — under a corrupted, unrecognized or
version-mismatched header, every registered decoder (schema, query,
non-empty domain) fails with the malformed-input error: no crash, no
silent misparse, no best-effort parsing. -/
theorem C5_format_rejection (f : SerializationType) (p : Perspective)
    (bytes : List Nat) (m : Mem) (src : BufferView) (target : Query)
    (arr : ArrayObj) (storage : List (Nat × Nat))
    (hbad : badHeader f bytes = true) :
    deserializeArraySchema f p bytes = .error .malformedInput ∧
    (readView m src = bytes →
      deserializeQuery m src f p target = .error .malformedInput) ∧
    deserializeArrayNonemptyDomain arr f p bytes storage =
      (.error .malformedInput, storage) := by
  have hnone : decHeader f bytes = none := by
    cases bytes with
    | nil => rfl
    | cons t rest =>
      cases rest with
      | nil => rfl
      | cons v rest2 =>
        have hcond : ¬ (t = formatTag f ∧ v = wireVersion) := by
          rintro ⟨rfl, rfl⟩
          simp [badHeader] at hbad
        simp [decHeader, hcond]
  refine ⟨?_, ?_, ?_⟩
  · simp [deserializeArraySchema, hnone]
  · intro hb
    simp [deserializeQuery, hb, hnone]
  · simp [deserializeArrayNonemptyDomain, hnone]

/-- Claim C10: serialization is read-only on its source — each serialize
entry point leaves every object store (schemas, queries, arrays, domain
bounds) and the underlying memory unchanged, and writes nothing but its
designated output buffer or buffer-list handle. -/
theorem C10_serialize_read_only (st : CApiState) (schemaH qH arrH domH : Nat)
    (bufH blH bufH2 : Nat) (f : SerializationType) (cs isEmpty : Bool) :
    ((apiSerializeArraySchema st schemaH f cs bufH).1.schemas = st.schemas ∧
      (apiSerializeArraySchema st schemaH f cs bufH).1.queries = st.queries ∧
      (apiSerializeArraySchema st schemaH f cs bufH).1.arrays = st.arrays ∧
      (apiSerializeArraySchema st schemaH f cs bufH).1.domains = st.domains ∧
      (apiSerializeArraySchema st schemaH f cs bufH).1.mem = st.mem ∧
      (apiSerializeArraySchema st schemaH f cs bufH).1.bufferLists =
        st.bufferLists ∧
      (∀ h, h ≠ bufH →
        (apiSerializeArraySchema st schemaH f cs bufH).1.buffers h =
          st.buffers h)) ∧
    ((apiSerializeQuery st qH f cs blH).1.schemas = st.schemas ∧
      (apiSerializeQuery st qH f cs blH).1.queries = st.queries ∧
      (apiSerializeQuery st qH f cs blH).1.arrays = st.arrays ∧
      (apiSerializeQuery st qH f cs blH).1.domains = st.domains ∧
      (apiSerializeQuery st qH f cs blH).1.mem = st.mem ∧
      (apiSerializeQuery st qH f cs blH).1.buffers = st.buffers ∧
      (∀ h, h ≠ blH →
        (apiSerializeQuery st qH f cs blH).1.bufferLists h =
          st.bufferLists h)) ∧
    ((apiSerializeArrayNonemptyDomain st arrH domH isEmpty f cs
        bufH2).1.schemas = st.schemas ∧
      (apiSerializeArrayNonemptyDomain st arrH domH isEmpty f cs
        bufH2).1.queries = st.queries ∧
      (apiSerializeArrayNonemptyDomain st arrH domH isEmpty f cs
        bufH2).1.arrays = st.arrays ∧
      (apiSerializeArrayNonemptyDomain st arrH domH isEmpty f cs
        bufH2).1.domains = st.domains ∧
      (apiSerializeArrayNonemptyDomain st arrH domH isEmpty f cs
        bufH2).1.mem = st.mem ∧
      (apiSerializeArrayNonemptyDomain st arrH domH isEmpty f cs
        bufH2).1.bufferLists = st.bufferLists ∧
      (∀ h, h ≠ bufH2 →
        (apiSerializeArrayNonemptyDomain st arrH domH isEmpty f cs
          bufH2).1.buffers h = st.buffers h)) := by
  refine ⟨?_, ?_, ?_⟩
  · cases hs : st.schemas schemaH with
    | none =>
      simp [apiSerializeArraySchema, hs]
    | some sc =>
      simp [apiSerializeArraySchema, hs]
      exact fun h hne habs => absurd habs hne
  · cases hq : st.queries qH with
    | none =>
      simp [apiSerializeQuery, hq]
    | some qs =>
      simp [apiSerializeQuery, hq]
      exact fun h hne habs => absurd habs hne
  · cases ha : st.arrays arrH with
    | none =>
      simp [apiSerializeArrayNonemptyDomain, ha]
    | some arr =>
      cases hd : st.domains domH with
      | none =>
        simp [apiSerializeArrayNonemptyDomain, ha, hd]
      | some bounds =>
        simp [apiSerializeArrayNonemptyDomain, ha, hd]
        exact fun h hne habs => absurd habs hne

/-- Claim C1: schema round-trip — for every array schema, serialization
format and perspective, deserializing the result of serializing the schema
with that format and perspective yields a schema equal to the original in
all perspective-preserved fields. -/
theorem C1_schema_roundtrip (f : SerializationType) (p : Perspective)
    (s : ArraySchema) :
    deserializeArraySchema f p (serializeArraySchema f p s) =
      .ok (redactSchema p s) ∧
    schemaPreservedEq p s (redactSchema p s) := by
  refine ⟨deserialize_serialize_schema f p s, ?_⟩
  cases p with
  | client =>
    exact ⟨rfl, rfl, rfl, rfl, rfl,
      List.forall₂_same.mpr fun a _ => ⟨rfl, rfl, rfl, rfl, rfl, fun _ => rfl⟩⟩
  | server =>
    refine ⟨rfl, rfl, rfl, rfl, rfl, ?_⟩
    show List.Forall₂ (attrPreservedEq .server) s.attributes
      (s.attributes.map fun a => { a with filterParams := [] })
    exact List.forall₂_map_right_iff.mpr
      (List.forall₂_same.mpr fun a _ =>
        ⟨rfl, rfl, rfl, rfl, rfl, fun h => nomatch h⟩)

theorem C2_witness :
    deserializeQuery
        (memOf (wireOf (serializeQuery memW schemaW queryW .capnp .client)))
        (srcOf 7 (wireOf (serializeQuery memW schemaW queryW .capnp .client)))
        .capnp (Perspective.opp .client) targetSmallW =
      .error (.bufferTooSmall [97] 3) ∧
    (deserializeQuery
        (memOf (wireOf (serializeQuery memW schemaW queryW .capnp .client)))
        (srcOf 7 (wireOf (serializeQuery memW schemaW queryW .capnp .client)))
        .capnp (Perspective.opp .client)
        (setFieldCapacity targetSmallW [97] 3)).isOk = true :=
  C2_undersized_buffer_retry memW schemaW queryW .capnp .client targetSmallW
    7 [(⟨[100], 2, 4, 0⟩, [10, 11])] [] ⟨[97], 3, 8, 0⟩ [12, 13, 14]
    ⟨[97], ⟨1, 0, 0, 2, true⟩, 0⟩ (by decide) (by decide) (by decide)
    (by decide) (by decide) (by decide)

theorem C3_witness :
    targetAcceptsWireB memW schemaW queryW targetW = true ∧
    (deserializeQuery
        (memOf (wireOf (serializeQuery memW schemaW queryW .capnp .client)))
        (srcOf 7 (wireOf (serializeQuery memW schemaW queryW .capnp .client)))
        .capnp (Perspective.opp .client) targetW).isOk = true :=
  ⟨by decide, (C3_query_roundtrip_content memW schemaW queryW .capnp .client
    targetW 7 (by decide)).1⟩

theorem C4_witness :
    aliasesSource (fieldsOfResult (deserializeQuery
        (memOf (wireOf (serializeQuery memW schemaW queryW .capnp .client)))
        (srcOf 7 (wireOf (serializeQuery memW schemaW queryW .capnp .client)))
        .capnp .server targetW))
      (srcOf 7 (wireOf (serializeQuery memW schemaW queryW .capnp .client)))
        = true ∧
    (fieldsOfResult (deserializeQuery
        (memOf (wireOf (serializeQuery memW schemaW queryW .capnp .client)))
        (srcOf 7 (wireOf (serializeQuery memW schemaW queryW .capnp .client)))
        .capnp .server targetW)).map (fun fld => readView memW2 fld.buf) =
      (fieldsOfResult (deserializeQuery
        (memOf (wireOf (serializeQuery memW schemaW queryW .capnp .client)))
        (srcOf 7 (wireOf (serializeQuery memW schemaW queryW .capnp .client)))
        .capnp .server targetW)).map (fun fld => readView
          (memOf (wireOf (serializeQuery memW schemaW queryW .capnp .client)))
          fld.buf) := by
  have happ := C4_zero_copy_aliasing
    (memOf (wireOf (serializeQuery memW schemaW queryW .capnp .client)))
    (srcOf 7 (wireOf (serializeQuery memW schemaW queryW .capnp .client)))
    .capnp .server targetW (by decide)
  exact ⟨happ.1, happ.2 memW2 (by decide)⟩

theorem C5_witness :
    badHeader .capnp [9, 1, 0] = true ∧
    deserializeArraySchema .capnp .client [9, 1, 0] =
      .error .malformedInput ∧
    deserializeQuery (memOf [9, 1, 0]) (srcOf 0 [9, 1, 0]) .capnp .client
      targetW = .error .malformedInput ∧
    deserializeArrayNonemptyDomain arrW .capnp .client [9, 1, 0] [(1, 2)] =
      (.error .malformedInput, [(1, 2)]) := by
  have happ := C5_format_rejection .capnp .client [9, 1, 0]
    (memOf [9, 1, 0]) (srcOf 0 [9, 1, 0]) targetW arrW [(1, 2)] (by decide)
  exact ⟨by decide, happ.1, happ.2.1 (by decide), happ.2.2⟩

theorem C6_witness :
    targetAcceptsWireB memW schemaW queryReqW targetW = true ∧
    (presentFields schemaW queryReqW).all
      (fun fld => fld.buf.size == 0) = true ∧
    (deserializeQuery
        (memOf (wireOf (serializeQuery memW schemaW queryReqW .capnp .client)))
        (srcOf 7 (wireOf (serializeQuery memW schemaW queryReqW .capnp .client)))
        .capnp .server targetW).isOk = true ∧
    (deserializeQuery
        (memOf (wireOf (serializeQuery memW schemaW queryReqW .capnp .server)))
        (srcOf 7 (wireOf (serializeQuery memW schemaW queryReqW .capnp .server)))
        .capnp .client targetW).isOk = true := by
  have happ := C6_perspective_asymmetry memW schemaW queryReqW .capnp
    targetW 7 (by decide)
  exact ⟨by decide, by decide, (happ.1 (by decide)).1, (happ.2 (by decide)).1⟩

theorem C9_witness :
    (deserializeArrayNonemptyDomain arrW .capnp .client [] [(1, 2)]).2 =
      [(1, 2)] ∧
    (deserializeArraySchemaInto .capnp .client [] none).2 = none :=
  ⟨(C9_decode_atomicity arrW .capnp .client [] [(1, 2)] none).1 (by decide),
    (C9_decode_atomicity arrW .capnp .client [] [(1, 2)] none).2 (by decide)⟩

theorem C10_witness :
    (apiSerializeArraySchema stW 0 .capnp true 1).1.buffers 2 =
      stW.buffers 2 :=
  (C10_serialize_read_only stW 0 0 0 0 1 1 1 .capnp true
    true).1.2.2.2.2.2.2 2 (by decide)

end TileDB

